import Mathlib

/-!
Event bus of the geode loader: listeners, filters, pools and the IPC entry point.

Shallow embedding of `loader/include/Geode/loader/Event.hpp` and of
`ipcPipeThread` in `loader/src/platform/windows/InternalLoader.cpp`.

* Pointers to listeners and pools are natural numbers (addresses); a null
  pointer is `none`.
* A user callback is a function of the event; besides its `ListenerResult` it
  yields the pool calls (`add` / `remove`) it makes while it runs.
* `std::function<Callback>` is `Option Callback`; calling an empty one raises
  `bad_function_call`.
-/

namespace geode

/-! ## Basic types -/

/-- Result of one listener invocation (`enum class ListenerResult`). -/
inductive ListenerResult where
  | Propagate
  | Stop
  deriving DecidableEq, Repr

/-- A call a callback makes on the pool that is dispatching to it. -/
inductive PoolOp where
  | add (listener : Nat)
  | remove (listener : Nat)
  deriving DecidableEq, Repr

/-- An event object: the tag of its most-derived class, the `sender` field and
the fields of the subclass. -/
structure Event where
  dynType : Nat
  sender : Nat
  payload : Nat
  deriving DecidableEq, Repr

/-- The signature `ListenerResult(T*)`, together with the pool calls the body makes. -/
abbrev Callback := Event → ListenerResult × List PoolOp

/-- Failures that unwind the stack. -/
inductive Fault where
  | bad_function_call
  | parse_error
  | type_error
  deriving DecidableEq, Repr

/-- What one `handle` of a listener did: its result, the events the user
callback was called on (in order), and the pool calls those calls made. -/
structure Invocation where
  result : ListenerResult
  calls : List Event
  ops : List PoolOp

/-- Calling a `std::function<Callback>`: an empty one throws. -/
def callFunction (fn : Option Callback) (e : Event) : Except Fault Invocation :=
  match fn with
  | none => .error .bad_function_call
  | some f => .ok ⟨(f e).1, [e], (f e).2⟩

/-- The singleton returned by `DefaultEventListenerPool::get()`. -/
def DefaultEventListenerPool.get : Nat := 0

/-! ## Filters -/

/-- The concept `is_filter`: the four operations a filter type offers and the
event type `T::Event` it declares (a class tag). -/
class is_filter (F : Type) where
  handle : F → Option Callback → geode.Event → Except Fault Invocation
  getPool : F → Option Nat
  setListener : F → Option Nat → F
  getListener : F → Option Nat
  Event : Nat

/-- The class template `EventFilter<T>`; `T` is the tag of the event class. -/
structure EventFilter (T : Nat) where
  m_listener : Option Nat := none
  deriving DecidableEq, Repr

namespace EventFilter

variable {T : Nat}

/-- The member `handle(std::function<Callback> fn, T* e)`: `return fn(e);`. -/
def handle (_self : EventFilter T) (fn : Option Callback) (e : geode.Event) :
    Except Fault Invocation :=
  callFunction fn e

/-- The member `getPool() const`: the default pool. -/
def getPool (_self : EventFilter T) : Option Nat :=
  some DefaultEventListenerPool.get

/-- The member `setListener(listener)`. -/
def setListener (_self : EventFilter T) (listener : Option Nat) : EventFilter T :=
  { m_listener := listener }

/-- The member `getListener() const`. -/
def getListener (self : EventFilter T) : Option Nat :=
  self.m_listener

end EventFilter

instance (T : Nat) : is_filter (EventFilter T) where
  handle := EventFilter.handle
  getPool := EventFilter.getPool
  setListener := EventFilter.setListener
  getListener := EventFilter.getListener
  Event := T

/-- A filter type whose `setListener` records the owner and leaves the pool
selection alone, as `EventFilter` does. -/
structure LawfulFilter (F : Type) [is_filter F] : Prop where
  owner : ∀ (f : F) (x : Option Nat), is_filter.getListener (is_filter.setListener f x) = x
  pool : ∀ (f : F) (x : Option Nat),
    is_filter.getPool (is_filter.setListener f x) = is_filter.getPool f

/-! ## Listeners -/

/-- The class template `EventListener<T>` with the `m_pool` field it inherits
from `EventListenerProtocol`. -/
structure EventListener (F : Type) where
  m_pool : Option Nat := none
  m_callback : Option Callback := none
  m_filter : F

namespace EventListener

variable {F : Type} [is_filter F]

/-- The override `EventListener::handle(Event* e)`. The downcast
`cast::typeinfo_cast<typename T::Event*>` lives in `utils/casts.hpp` and is
taken as the argument `cast`. -/
def handle (cast : Nat → geode.Event → Option geode.Event) (self : EventListener F)
    (e : geode.Event) : Except Fault Invocation :=
  if self.m_callback.isSome then
    match cast (is_filter.Event F) e with
    | some myev => is_filter.handle self.m_filter self.m_callback myev
    | none => .ok ⟨.Propagate, [], []⟩
  else
    .ok ⟨.Propagate, [], []⟩

/-- The override `EventListener::getPool() const`. -/
def getPool (self : EventListener F) : Option Nat :=
  is_filter.getPool self.m_filter

/-- The member `bind(std::function<Callback> fn)`. -/
def bind (self : EventListener F) (fn : Option Callback) : EventListener F :=
  { self with m_callback := fn }

/-- The member `setFilter(T filter)`; `this` is the address of the listener. -/
def setFilter (self : EventListener F) (this : Nat) (filter : F) : EventListener F :=
  { self with m_filter := is_filter.setListener filter (some this) }

end EventListener

/-- Modelled from the spec: the safe-downcast primitive `cast::typeinfo_cast`
of `utils/casts.hpp`, which is not among the sources. It returns the object
when its most-derived class is the target class and null otherwise. -/
def typeinfo_cast (target : Nat) (e : Event) : Option Event :=
  if e.dynType = target then some e else none

/-! ## The IPC entry point -/

/-- A value of `nlohmann::json`. -/
inductive Json where
  | null
  | bool (b : Bool)
  | number (n : Int)
  | string (s : String)
  | array (xs : List Json)
  | object (kvs : List (String × Json))

namespace Json

/-- The member `contains(key)`: false on anything that is not an object. -/
def contains : Json → String → Bool
  | .object kvs, key => kvs.any (fun kv => kv.1 == key)
  | _, _ => false

/-- The member `operator[](key)`: a null value becomes an object, a missing key
is inserted with a null value, and a value of any other kind throws. -/
def index : Json → String → Except Fault Json
  | .object kvs, key =>
    match kvs.find? (fun kv => kv.1 == key) with
    | some kv => .ok kv.2
    | none => .ok .null
  | .null, _ => .ok .null
  | _, _ => .error .type_error

/-- The member `is_string()`. -/
def is_string : Json → Bool
  | .string _ => true
  | _ => false

/-- The conversion to `std::string`, which throws on any other kind. -/
def toStdString : Json → Except Fault String
  | .string s => .ok s
  | _ => .error .type_error

end Json

/-- The fields an `IPCEvent` is constructed from. -/
structure IPCEvent where
  pipe : Nat
  mod : String
  message : String
  replyID : Option String
  data : Json

/-- The three warnings `ipcPipeThread` logs. -/
inductive IpcWarning where
  | missingMod
  | missingMessage
  | invalidJson
  deriving DecidableEq, Repr

/-- What one run of `ipcPipeThread` did: the events it called `post()` on, the
warnings it logged, and whether it reached the clean-up at `ipc_done`. -/
structure IpcRun where
  posted : List IPCEvent
  warnings : List IpcWarning
  closed : Bool

/-- The body of the `try` block of `ipcPipeThread`; an early `goto ipc_done`
is a normal return. `parse` is `nlohmann::json::parse`. -/
def ipcTryBlock (parse : String → Except Fault Json) (pipe : Nat) (buffer : String) :
    Except Fault (List IPCEvent × List IpcWarning) := do
  let json ← parse buffer
  let modOk ← (if json.contains "mod" then do pure (← json.index "mod").is_string
               else pure false : Except Fault Bool)
  if !modOk then
    return ([], [.missingMod])
  let messageOk ← (if json.contains "message" then do pure (← json.index "message").is_string
                   else pure false : Except Fault Bool)
  if !messageOk then
    return ([], [.missingMessage])
  let replyOk ← (if json.contains "reply" then do pure (← json.index "reply").is_string
                 else pure false : Except Fault Bool)
  let replyID ← (if replyOk then do pure (some (← (← json.index "reply").toStdString))
                 else pure none : Except Fault (Option String))
  let data ← (if json.contains "data" then json.index "data"
              else pure Json.null : Except Fault Json)
  let mod ← (← json.index "mod").toStdString
  let message ← (← json.index "message").toStdString
  return ([⟨pipe, mod, message, replyID, data⟩], [])

/-- The function `ipcPipeThread(HANDLE pipe)`. `readResult` is what `ReadFile`
put into the buffer, or `none` when it failed. -/
def ipcPipeThread (parse : String → Except Fault Json) (pipe : Nat)
    (readResult : Option String) : IpcRun :=
  match readResult with
  | none => ⟨[], [], true⟩
  | some buffer =>
    match ipcTryBlock parse pipe buffer with
    | .ok (posted, warnings) => ⟨posted, warnings, true⟩
    | .error _ => ⟨[], [.invalidJson], true⟩

/-- The wording of the interface: the field `key` is present with a string value. -/
def Json.hasStringField (j : Json) (key : String) : Bool :=
  match j with
  | .object kvs =>
    match kvs.find? (fun kv => kv.1 == key) with
    | some (_, .string _) => true
    | _ => false
  | _ => false

/-- The wording of the interface: the text parses and carries a module
identifier and a message name, both strings. -/
def wellFormedMessage (parsed : Except Fault Json) : Bool :=
  match parsed with
  | .ok j => j.hasStringField "mod" && j.hasStringField "message"
  | .error _ => false

/-! ## The default pool -/

/-- The struct `DefaultEventListenerPool::Data`, without its mutex: the depth
counter, the active collection (a null entry is a removed slot) and the
pending insertions. -/
structure Data where
  m_locked : Nat := 0
  m_listeners : List (Option Nat) := []
  m_toAdd : List Nat := []
  deriving DecidableEq, Repr

/-- What one `handle` of a pool did: its result, the pool afterwards, and the
listeners whose `handle` it called, in order. -/
structure Dispatch where
  result : ListenerResult
  pool : Data
  invoked : List Nat
  deriving DecidableEq, Repr

namespace DefaultEventListenerPool

/-- A listener is a member when a live slot of the active collection or an
entry of the pending collection refers to it. -/
def isMember (d : Data) (listener : Nat) : Prop :=
  some listener ∈ d.m_listeners ∨ listener ∈ d.m_toAdd

instance (d : Data) (listener : Nat) : Decidable (isMember d listener) := by
  unfold isMember
  infer_instance

/-- How many registrations of a listener the pool holds. -/
def registrations (d : Data) (listener : Nat) : Nat :=
  d.m_listeners.count (some listener) + d.m_toAdd.count listener

/-- Modelled from the spec: what the pool does when its depth is 0 (the body of
`DefaultEventListenerPool` is not among the sources): removed slots are
compacted away and the pending collection is appended, in insertion order. -/
def settle (d : Data) : Data :=
  { d with
    m_listeners := d.m_listeners.filter Option.isSome ++ d.m_toAdd.map some
    m_toAdd := [] }

/-- Modelled from the spec: `DefaultEventListenerPool::add`, declared in
`Event.hpp` and defined outside the sources. A listener that is already a
member is refused with no state change; during a dispatch the insertion goes
to the pending collection, otherwise to the end of the active collection. -/
def add (d : Data) (listener : Nat) : Bool × Data :=
  if isMember d listener then
    (false, d)
  else if d.m_locked = 0 then
    (true, { settle d with m_listeners := (settle d).m_listeners ++ [some listener] })
  else
    (true, { d with m_toAdd := d.m_toAdd ++ [listener] })

/-- Modelled from the spec: `DefaultEventListenerPool::remove`, declared in
`Event.hpp` and defined outside the sources. During a dispatch the slot is
only marked as removed (and a pending insertion is withdrawn); otherwise the
slot is taken out of the active collection. -/
def remove (d : Data) (listener : Nat) : Data :=
  if d.m_locked = 0 then
    { settle d with
      m_listeners := (settle d).m_listeners.filter (fun s => decide (s ≠ some listener)) }
  else
    { d with
      m_listeners := d.m_listeners.map (fun s => if s = some listener then none else s)
      m_toAdd := d.m_toAdd.filter (fun l => decide (l ≠ listener)) }

/-- One pool call made by a callback. -/
def applyOp (d : Data) : PoolOp → Data
  | .add listener => (add d listener).2
  | .remove listener => remove d listener

/-- The pool calls of one callback, in order. -/
def applyOps (d : Data) (ops : List PoolOp) : Data :=
  ops.foldl applyOp d

/-- Modelled from the spec: the loop of `DefaultEventListenerPool::handle` over
the indices `i, i+1, ..., i+n-1` of the active collection. A removed slot is
skipped; a live one has its `handle` called (`invoke`), the pool calls of the
callback take effect, and `Stop` ends the loop. -/
def visit (invoke : Nat → Event → ListenerResult × List PoolOp) (e : Event) :
    Nat → Nat → Data → ListenerResult × Data × List Nat
  | 0, _, d => (.Propagate, d, [])
  | n + 1, i, d =>
    match (d.m_listeners.get? i).join with
    | none => visit invoke e n (i + 1) d
    | some listener =>
      let d1 := applyOps d (invoke listener e).2
      match (invoke listener e).1 with
      | .Stop => (.Stop, d1, [listener])
      | .Propagate =>
        let rest := visit invoke e n (i + 1) d1
        (rest.1, rest.2.1, listener :: rest.2.2)

/-- Modelled from the spec: `DefaultEventListenerPool::handle`, declared in
`Event.hpp` and defined outside the sources. The depth is incremented, the
size of the active collection is captured, the indices below it are visited,
the depth is decremented, and at depth 0 the pool settles. `invoke` is the
virtual `EventListenerProtocol::handle` of the listener at an address. -/
def handle (invoke : Nat → Event → ListenerResult × List PoolOp) (d : Data) (e : Event) :
    Dispatch :=
  let d1 : Data := { d with m_locked := d.m_locked + 1 }
  let r := visit invoke e d1.m_listeners.length 0 d1
  let d2 : Data := { r.2.1 with m_locked := r.2.1.m_locked - 1 }
  ⟨r.1, if d2.m_locked = 0 then settle d2 else d2, r.2.2⟩

end DefaultEventListenerPool

/-! ## Listener objects in memory -/

/-- The pools and the listener objects of the process, by address. -/
structure World (F : Type) where
  pools : Nat → Data
  objs : Nat → EventListener F

namespace World

variable {F : Type}

/-- Overwrite the listener object at an address. -/
def store (w : World F) (addr : Nat) (o : EventListener F) : World F :=
  { w with objs := Function.update w.objs addr o }

/-- Overwrite the pool at an address. -/
def storePool (w : World F) (addr : Nat) (d : Data) : World F :=
  { w with pools := Function.update w.pools addr d }

end World

namespace EventListenerProtocol

variable {F : Type} [is_filter F]

/-- Modelled from the spec: `EventListenerProtocol::enable`, declared in
`Event.hpp` and defined outside the sources. A listener belongs to at most one
pool at a time, so one that already has a pool is left alone; otherwise it is
registered into the pool its filter selects and the back-reference is set. -/
def enable (w : World F) (this : Nat) : Bool × World F :=
  match (w.objs this).m_pool with
  | some _ => (false, w)
  | none =>
    match (w.objs this).getPool with
    | none => (false, w)
    | some p =>
      let r := DefaultEventListenerPool.add (w.pools p) this
      (r.1, (w.storePool p r.2).store this { w.objs this with m_pool := some p })

/-- Modelled from the spec: `EventListenerProtocol::disable`, declared in
`Event.hpp` and defined outside the sources. The listener is unregistered from
the pool it belongs to and the back-reference is cleared. -/
def disable (w : World F) (this : Nat) : World F :=
  match (w.objs this).m_pool with
  | none => w
  | some p =>
    (w.storePool p (DefaultEventListenerPool.remove (w.pools p) this)).store this
      { w.objs this with m_pool := none }

end EventListenerProtocol

namespace EventListener

variable {F : Type} [is_filter F]

/-- The statement `m_filter.setListener(this);` on the object at `this`. -/
def bindOwner (w : World F) (this : Nat) : World F :=
  w.store this
    { w.objs this with m_filter := is_filter.setListener (w.objs this).m_filter (some this) }

/-- The constructor `EventListener(T filter = T())`. -/
def ctorFilter (w : World F) (this : Nat) (filter : F) : World F :=
  let w1 := w.store this { m_pool := none, m_callback := none, m_filter := filter }
  (EventListenerProtocol.enable (bindOwner w1 this) this).2

/-- The constructor `EventListener(std::function<Callback> fn, T filter = T())`. -/
def ctorFunction (w : World F) (this : Nat) (fn : Option Callback) (filter : F) : World F :=
  let w1 := w.store this { m_pool := none, m_callback := fn, m_filter := filter }
  (EventListenerProtocol.enable (bindOwner w1 this) this).2

/-- The constructor `EventListener(Callback* fnptr, T filter = T())`; a null
function pointer gives an empty `std::function`. -/
def ctorFnPtr (w : World F) (this : Nat) (fnptr : Option Callback) (filter : F) : World F :=
  let w1 := w.store this { m_pool := none, m_callback := fnptr, m_filter := filter }
  (EventListenerProtocol.enable (bindOwner w1 this) this).2

/-- The constructor `EventListener(C* cls, MemberFn<C> fn, T filter = T())`: it
delegates to the callable constructor with `std::bind(fn, cls, _1)` and then
runs its own body. -/
def ctorMember {C : Type} (w : World F) (this : Nat) (cls : C)
    (fn : C → Event → ListenerResult × List PoolOp) (filter : F) : World F :=
  let w1 := ctorFunction w this (some (fun e => fn cls e)) filter
  (EventListenerProtocol.enable (bindOwner w1 this) this).2

/-- The move constructor `EventListener(EventListener&& other)`. The callback
of `other` is left empty by the move; a filter is moved by copying it. -/
def ctorMove (w : World F) (this other : Nat) : World F :=
  let o := w.objs other
  let w1 := w.store this { m_pool := none, m_callback := o.m_callback, m_filter := o.m_filter }
  let w2 := w1.store other { w1.objs other with m_callback := none }
  let w3 := bindOwner w2 this
  let w4 := EventListenerProtocol.disable w3 other
  (EventListenerProtocol.enable w4 this).2

/-- The copy constructor `EventListener(EventListener const& other)`. -/
def ctorCopy (w : World F) (this other : Nat) : World F :=
  let o := w.objs other
  let w1 := w.store this { m_pool := none, m_callback := o.m_callback, m_filter := o.m_filter }
  (EventListenerProtocol.enable (bindOwner w1 this) this).2

/-- The move assignment `operator=(EventListener&& other)`. -/
def assignMove (w : World F) (this other : Nat) : World F :=
  if this = other then
    w
  else
    let o := w.objs other
    let w1 := w.store this { w.objs this with m_callback := o.m_callback }
    let w2 := w1.store other { w1.objs other with m_callback := none }
    let w3 := w2.store this { w2.objs this with m_filter := (w2.objs other).m_filter }
    let w4 := bindOwner w3 this
    EventListenerProtocol.disable w4 other

end EventListener

/-- The effect of the `remove` calls among `ops` on one slot of the active
collection while a dispatch is running. -/
def tombstone (ops : List PoolOp) : Option Nat → Option Nat
  | some l => if PoolOp.remove l ∈ ops then none else some l
  | none => none

/-- One step of a walk over the slots of the active collection: the listener
of a live slot is invoked and joins `inv`, the listeners invoked so far,
unless one of those has removed it; a removed slot is skipped. -/
def deliverStep (invoke : Nat → Event → ListenerResult × List PoolOp) (e : Event)
    (inv : List Nat) : Option Nat → List Nat
  | some l =>
    if inv.any (fun m => decide (PoolOp.remove l ∈ (invoke m e).2)) then inv else inv ++ [l]
  | none => inv

/-- The listeners invoked by a walk over `slots` that continues after `acc`
have been invoked. -/
def deliverFrom (invoke : Nat → Event → ListenerResult × List PoolOp) (e : Event)
    (acc : List Nat) (slots : List (Option Nat)) : List Nat :=
  slots.foldl (deliverStep invoke e) acc

/-- The listeners invoked by a walk over `slots`, in order: the listener of
each live slot, except one that a listener invoked earlier in the walk has
removed. -/
def deliver (invoke : Nat → Event → ListenerResult × List PoolOp) (e : Event)
    (slots : List (Option Nat)) : List Nat :=
  deliverFrom invoke e [] slots

/-- The virtual call `listener->handle(event)` a pool makes on the object at
an address, for listeners of one filter type. A call that throws has no
result; it is given the neutral one here and does not arise in the scenarios
below. -/
def EventListenerProtocol.handle {F : Type} [is_filter F]
    (cast : Nat → Event → Option Event) (objs : Nat → EventListener F)
    (listener : Nat) (e : Event) : ListenerResult × List PoolOp :=
  match (objs listener).handle cast e with
  | .ok inv => (inv.result, inv.ops)
  | .error _ => (.Propagate, [])

namespace Scenario

/-- The event class `Foo`. -/
def Foo : Nat := 1

/-- The event class `Bar`. -/
def Bar : Nat := 2

/-- A `Foo` event. -/
def fooEvent : Event := ⟨Foo, 0, 0⟩

/-- A `Bar` event. -/
def barEvent : Event := ⟨Bar, 0, 0⟩

/-- A callback that returns `Propagate`. -/
def cbPropagate : Callback := fun _ => (.Propagate, [])

/-- A callback that returns `Stop`. -/
def cbStop : Callback := fun _ => (.Stop, [])

/-- A callback that registers the listener at address 13 and returns `Propagate`. -/
def cbAddD : Callback := fun _ => (.Propagate, [.add 13])

/-- A callback that unregisters the listener at address 13 and returns `Propagate`. -/
def cbRemoveD : Callback := fun _ => (.Propagate, [.remove 13])

/-- No pool has a listener and no object has a callback. -/
def emptyWorld : World (EventFilter Foo) :=
  { pools := fun _ => {}, objs := fun _ => { m_filter := {} } }

/-- Listener A (address 10, returns `Propagate`) and then listener B
(address 11, returns `Stop`) are constructed. -/
def worldAB : World (EventFilter Foo) :=
  EventListener.ctorFunction
    (EventListener.ctorFunction emptyWorld 10 (some cbPropagate) {}) 11 (some cbStop) {}

/-- Listener A at address 10 registers D when it is called; the object D at
address 13 returns `Propagate`. -/
def objsAD : Nat → EventListener (EventFilter Foo) := fun a =>
  if a = 10 then { m_pool := some 0, m_callback := some cbAddD, m_filter := ⟨some 10⟩ }
  else if a = 13 then { m_pool := some 0, m_callback := some cbPropagate, m_filter := ⟨some 13⟩ }
  else { m_filter := {} }

/-- Listener X at address 9 unregisters D, listener A at address 10 registers
D, and the object D at address 13 returns `Propagate`. -/
def objsXAD : Nat → EventListener (EventFilter Foo) := fun a =>
  if a = 9 then { m_pool := some 0, m_callback := some cbRemoveD, m_filter := ⟨some 9⟩ }
  else if a = 10 then { m_pool := some 0, m_callback := some cbAddD, m_filter := ⟨some 10⟩ }
  else if a = 13 then { m_pool := some 0, m_callback := some cbPropagate, m_filter := ⟨some 13⟩ }
  else { m_filter := {} }

/-- Listener B (address 11, returns `Stop`) is constructed. -/
def worldB : World (EventFilter Foo) :=
  EventListener.ctorFunction emptyWorld 11 (some cbStop) {}

/-- Listeners A and B are constructed and then A is disabled. -/
def worldADisabled : World (EventFilter Foo) :=
  EventListenerProtocol.disable worldAB 10

/-- A class with one member function that returns `Stop`. -/
def memberStop : Unit → Event → ListenerResult × List PoolOp := fun _ _ => (.Stop, [])

/-- The default pool with X and then D as its members and no dispatch running. -/
def poolXD : Data := { m_locked := 0, m_listeners := [some 9, some 13], m_toAdd := [] }

/-- The default pool with A as its only active member and D in the pending
collection, while another dispatch is running on it (depth 1). -/
def poolAPendingD : Data := { m_locked := 1, m_listeners := [some 10], m_toAdd := [13] }

/-- Listener B is enabled in the default pool while a dispatch is running on
the pool (depth 1), as it is inside a callback. -/
def worldBBusy : World (EventFilter Foo) :=
  { pools := fun q => if q = 0 then { m_locked := 1, m_listeners := [some 11], m_toAdd := [] }
      else {}
    objs := worldB.objs }

/-- A callback that unregisters the listener at address 12 and returns `Propagate`. -/
def cbRemove12 : Callback := fun _ => (.Propagate, [.remove 12])

/-- Listener S (address 10, returns `Stop`) and then listener B (address 11,
returns `Propagate`) are constructed. -/
def worldStopFirst : World (EventFilter Foo) :=
  EventListener.ctorFunction
    (EventListener.ctorFunction emptyWorld 10 (some cbStop) {}) 11 (some cbPropagate) {}

/-- Listener R (address 10, unregisters the listener at address 12) and then
listener B (address 11, returns `Propagate`) are constructed. -/
def worldRemoverFirst : World (EventFilter Foo) :=
  EventListener.ctorFunction
    (EventListener.ctorFunction emptyWorld 10 (some cbRemove12) {}) 11 (some cbPropagate) {}

end Scenario

/-! ## Theorems -/

open DefaultEventListenerPool

/-! ### The IPC entry point -/

theorem Json.contains_object (kvs : List (String × Json)) (key : String) :
    (Json.object kvs).contains key = (kvs.find? (fun kv => kv.1 == key)).isSome := by
  simp only [Json.contains]
  induction kvs with
  | nil => simp
  | cons kv rest ih =>
    by_cases h : (kv.1 == key) = true
    · simp [List.find?, h]
    · simp only [Bool.not_eq_true] at h
      simp [List.find?, h, ih]

theorem Json.stringCheck (j : Json) (key : String) :
    (if j.contains key then do pure (← j.index key).is_string
      else pure false : Except Fault Bool) = .ok (j.hasStringField key) := by
  cases j with
  | object kvs =>
    rw [Json.contains_object]
    simp only [Json.index, Json.hasStringField]
    cases kvs.find? (fun kv => kv.1 == key) with
    | none => simp [pure, Except.pure]
    | some kv =>
      obtain ⟨k, v⟩ := kv
      cases v <;> simp [pure, Except.pure, bind, Except.bind, Json.is_string]
  | _ => simp [Json.contains, Json.hasStringField, pure, Except.pure]

theorem Json.index_of_hasStringField (j : Json) (key : String)
    (h : j.hasStringField key = true) : ∃ s, j.index key = .ok (.string s) := by
  cases j with
  | object kvs =>
    simp only [Json.hasStringField] at h
    simp only [Json.index]
    cases hf : kvs.find? (fun kv => kv.1 == key) with
    | none => simp [hf] at h
    | some kv =>
      obtain ⟨k, v⟩ := kv
      cases v <;> simp [hf] at h
      exact ⟨_, rfl⟩
  | _ => simp [Json.hasStringField] at h

theorem Json.index_of_contains (j : Json) (key : String)
    (h : j.contains key = true) : ∃ v, j.index key = .ok v := by
  cases j with
  | object kvs =>
    simp only [Json.index]
    cases kvs.find? (fun kv => kv.1 == key) with
    | none => exact ⟨_, rfl⟩
    | some kv => exact ⟨_, rfl⟩
  | _ => simp [Json.contains] at h

theorem ipcTryBlock_ok (parse : String → Except Fault Json) (pipe : Nat) (text : String)
    (j : Json) (hp : parse text = .ok j) (hm : j.hasStringField "mod" = true)
    (hs : j.hasStringField "message" = true) :
    ∃ ev, ipcTryBlock parse pipe text = .ok ([ev], []) := by
  obtain ⟨m, hmi⟩ := Json.index_of_hasStringField j "mod" hm
  obtain ⟨s, hsi⟩ := Json.index_of_hasStringField j "message" hs
  simp only [ipcTryBlock, Json.stringCheck, hp, hm, hs]
  by_cases hr : j.hasStringField "reply" = true
  · obtain ⟨r, hri⟩ := Json.index_of_hasStringField j "reply" hr
    by_cases hd : j.contains "data" = true
    · obtain ⟨v, hvi⟩ := Json.index_of_contains j "data" hd
      simp [hm, hs, hr, hri, hd, hvi, hmi, hsi, bind, Except.bind, pure, Except.pure, Json.toStdString]
    · simp [hm, hs, hr, hri, hd, hmi, hsi, bind, Except.bind, pure, Except.pure, Json.toStdString]
  · by_cases hd : j.contains "data" = true
    · obtain ⟨v, hvi⟩ := Json.index_of_contains j "data" hd
      simp [hm, hs, hr, hd, hvi, hmi, hsi, bind, Except.bind, pure, Except.pure, Json.toStdString]
    · simp [hm, hs, hr, hd, hmi, hsi, bind, Except.bind, pure, Except.pure, Json.toStdString]

/-- C7: for every text read from the pipe, `ipcPipeThread` calls `post()`
exactly once when the text parses to a value with a string `mod` field and a
string `message` field, whatever `reply` and `data` are, and zero times
otherwise. -/
theorem ipcPipeThread_posts_once_iff_well_formed (parse : String → Except Fault Json)
    (pipe : Nat) (text : String) :
    (ipcPipeThread parse pipe (some text)).posted.length
      = if wellFormedMessage (parse text) then 1 else 0 := by
  cases hp : parse text with
  | error err => simp [ipcPipeThread, ipcTryBlock, wellFormedMessage, hp, bind, Except.bind]
  | ok j =>
    by_cases hm : j.hasStringField "mod" = true
    · by_cases hs : j.hasStringField "message" = true
      · obtain ⟨ev, hev⟩ := ipcTryBlock_ok parse pipe text j hp hm hs
        simp [ipcPipeThread, hev, wellFormedMessage, hm, hs]
      · simp only [ipcPipeThread, ipcTryBlock, Json.stringCheck, hp]
        simp [wellFormedMessage, hm, hs, bind, Except.bind, pure, Except.pure]
    · simp only [ipcPipeThread, ipcTryBlock, Json.stringCheck, hp]
      simp [wellFormedMessage, hm, bind, Except.bind, pure, Except.pure]

/-! ### The dispatch loop of the default pool -/

theorem tombstone_cons (op : PoolOp) (ops : List PoolOp) (s : Option Nat) :
    tombstone ops (tombstone [op] s) = tombstone (op :: ops) s := by
  cases s with
  | none => rfl
  | some l =>
    by_cases h1 : PoolOp.remove l = op
    · simp [tombstone, h1]
    · by_cases h2 : PoolOp.remove l ∈ ops
      · simp [tombstone, h1, h2]
      · simp [tombstone, h1, h2]

theorem tombstone_eq_some {ops : List PoolOp} {s : Option Nat} {l : Nat}
    (h : tombstone ops s = some l) : s = some l ∧ PoolOp.remove l ∉ ops := by
  cases s with
  | none => simp [tombstone] at h
  | some m =>
    by_cases hm : PoolOp.remove m ∈ ops
    · simp [tombstone, hm] at h
    · simp [tombstone, hm] at h
      subst h
      exact ⟨rfl, hm⟩

theorem applyOp_locked (d : Data) (op : PoolOp) (hl : d.m_locked ≠ 0) :
    (applyOp d op).m_locked = d.m_locked ∧
      (applyOp d op).m_listeners = d.m_listeners.map (tombstone [op]) := by
  cases op with
  | add l =>
    have hid : d.m_listeners.map (tombstone [PoolOp.add l]) = d.m_listeners := by
      conv_rhs => rw [← List.map_id d.m_listeners]
      apply List.map_congr_left
      intro s _
      cases s <;> simp [tombstone]
    simp only [applyOp, add]
    split
    · exact ⟨rfl, hid.symm⟩
    · simp [hl, hid]
  | remove l =>
    simp only [applyOp, remove, hl, if_false]
    refine ⟨trivial, ?_⟩
    apply List.map_congr_left
    intro s _
    cases s with
    | none => simp [tombstone]
    | some m =>
      by_cases hm : m = l
      · simp [tombstone, hm]
      · simp [tombstone, hm]

theorem applyOps_locked (ops : List PoolOp) (d : Data) (hl : d.m_locked ≠ 0) :
    (applyOps d ops).m_locked = d.m_locked ∧
      (applyOps d ops).m_listeners = d.m_listeners.map (tombstone ops) := by
  induction ops generalizing d with
  | nil =>
    refine ⟨rfl, ?_⟩
    simp only [applyOps, List.foldl_nil]
    conv_lhs => rw [← List.map_id d.m_listeners]
    apply List.map_congr_left
    intro s _
    cases s <;> simp [tombstone]
  | cons op ops ih =>
    obtain ⟨h1, h2⟩ := applyOp_locked d op hl
    have hl1 : (applyOp d op).m_locked ≠ 0 := by rw [h1]; exact hl
    obtain ⟨h3, h4⟩ := ih (applyOp d op) hl1
    have hstep : applyOps d (op :: ops) = applyOps (applyOp d op) ops := rfl
    rw [hstep, h3, h4, h1, h2, List.map_map]
    refine ⟨rfl, ?_⟩
    apply List.map_congr_left
    intro s _
    exact tombstone_cons op ops s

theorem slot_drop (slots : List (Option Nat)) (i : Nat) (h : i < slots.length) :
    slots.drop i = (slots.get? i).join :: slots.drop (i + 1) := by
  rw [List.drop_eq_getElem_cons h]
  simp [List.getElem?_eq_getElem h]

theorem tombstone_append (A B : List PoolOp) (s : Option Nat) :
    tombstone B (tombstone A s) = tombstone (A ++ B) s := by
  cases s with
  | none => rfl
  | some l =>
    by_cases h1 : PoolOp.remove l ∈ A
    · simp [tombstone, h1]
    · by_cases h2 : PoolOp.remove l ∈ B
      · simp [tombstone, h1, h2]
      · simp [tombstone, h1, h2]

theorem tombstone_nil (s : Option Nat) : tombstone [] s = s := by
  cases s <;> simp [tombstone]

theorem deliverStep_removed (invoke : Nat → Event → ListenerResult × List PoolOp) (e : Event)
    (acc : List Nat) (R : List PoolOp) (o : Option Nat)
    (hR : ∀ l, PoolOp.remove l ∈ R ↔ ∃ m, m ∈ acc ∧ PoolOp.remove l ∈ (invoke m e).2)
    (h : tombstone R o = none) : deliverStep invoke e acc o = acc := by
  cases o with
  | none => rfl
  | some l =>
    by_cases hmem : PoolOp.remove l ∈ R
    · obtain ⟨m, hm, hml⟩ := (hR l).mp hmem
      have hany : acc.any (fun m => decide (PoolOp.remove l ∈ (invoke m e).2)) = true := by
        rw [List.any_eq_true]
        exact ⟨m, hm, by simpa using hml⟩
      simp [deliverStep, hany]
    · simp [tombstone, hmem] at h

theorem deliverStep_live (invoke : Nat → Event → ListenerResult × List PoolOp) (e : Event)
    (acc : List Nat) (R : List PoolOp) (o : Option Nat) (l : Nat)
    (hR : ∀ l, PoolOp.remove l ∈ R ↔ ∃ m, m ∈ acc ∧ PoolOp.remove l ∈ (invoke m e).2)
    (h : tombstone R o = some l) : o = some l ∧ deliverStep invoke e acc o = acc ++ [l] := by
  obtain ⟨ho, hnot⟩ := tombstone_eq_some h
  subst ho
  refine ⟨rfl, ?_⟩
  have hany : acc.any (fun m => decide (PoolOp.remove l ∈ (invoke m e).2)) = false := by
    rw [Bool.eq_false_iff]
    intro ht
    rw [List.any_eq_true] at ht
    obtain ⟨m, hm, hml⟩ := ht
    exact hnot ((hR l).mpr ⟨m, hm, by simpa using hml⟩)
  simp [deliverStep, hany]

theorem deliverFrom_cons (invoke : Nat → Event → ListenerResult × List PoolOp) (e : Event)
    (acc : List Nat) (o : Option Nat) (slots : List (Option Nat)) :
    deliverFrom invoke e acc (o :: slots)
      = deliverFrom invoke e (deliverStep invoke e acc o) slots := rfl

theorem deliverFrom_append (invoke : Nat → Event → ListenerResult × List PoolOp) (e : Event)
    (acc : List Nat) (xs ys : List (Option Nat)) :
    deliverFrom invoke e acc (xs ++ ys)
      = deliverFrom invoke e (deliverFrom invoke e acc xs) ys := by
  simp [deliverFrom, List.foldl_append]

theorem visit_exact (invoke : Nat → Event → ListenerResult × List PoolOp) (e : Event) :
    ∀ (n i : Nat) (d : Data) (acc : List Nat) (R : List PoolOp) (orig : List (Option Nat)),
      d.m_locked ≠ 0 → i + n = d.m_listeners.length →
      (∀ l, PoolOp.remove l ∈ R ↔ ∃ m, m ∈ acc ∧ PoolOp.remove l ∈ (invoke m e).2) →
      d.m_listeners.drop i = orig.map (tombstone R) →
      (visit invoke e n i d).2.1.m_locked = d.m_locked ∧
      ∃ visited rest, orig = visited ++ rest ∧
        deliverFrom invoke e acc visited = acc ++ (visit invoke e n i d).2.2 ∧
        ((visit invoke e n i d).1 = .Propagate →
          rest = [] ∧ ∀ l, l ∈ (visit invoke e n i d).2.2 → (invoke l e).1 = .Propagate) ∧
        ((visit invoke e n i d).1 = .Stop →
          ∃ pre s inv0, visited = pre ++ [some s] ∧
            (visit invoke e n i d).2.2 = inv0 ++ [s] ∧
            deliverFrom invoke e acc pre = acc ++ inv0 ∧ (invoke s e).1 = .Stop ∧
            ∀ l, l ∈ inv0 → (invoke l e).1 = .Propagate) := by
  intro n
  induction n with
  | zero =>
    intro i d acc R orig _ hn _ hdrop
    have hnil : d.m_listeners.drop i = [] :=
      List.drop_eq_nil_iff.mpr (by omega : d.m_listeners.length ≤ i)
    rw [hnil] at hdrop
    have horig : orig = [] := List.map_eq_nil_iff.mp hdrop.symm
    refine ⟨rfl, [], [], by simp [horig], by simp [visit, deliverFrom], ?_, ?_⟩
    · intro _
      exact ⟨rfl, by simp [visit]⟩
    · intro h
      simp [visit] at h
  | succ n ih =>
    intro i d acc R orig hl hn hR hdrop
    have hi : i < d.m_listeners.length := by omega
    rw [slot_drop d.m_listeners i hi] at hdrop
    cases orig with
    | nil => simp at hdrop
    | cons o orig1 =>
      simp only [List.map_cons, List.cons.injEq] at hdrop
      obtain ⟨hslot, hrest⟩ := hdrop
      cases hs : (d.m_listeners.get? i).join with
      | none =>
        have hv : visit invoke e (n + 1) i d = visit invoke e n (i + 1) d := by
          simp only [visit, hs]
        rw [hs] at hslot
        have hstep := deliverStep_removed invoke e acc R o hR hslot.symm
        obtain ⟨h1, visited, rest, h2, h3, h4, h5⟩ :=
          ih (i + 1) d acc R orig1 hl (by omega) hR hrest
        rw [hv]
        refine ⟨h1, o :: visited, rest, by rw [h2]; rfl, ?_, h4, ?_⟩
        · rw [deliverFrom_cons, hstep]
          exact h3
        · intro hstop
          obtain ⟨pre, s, inv0, hp1, hp2, hp3, hp4, hp5⟩ := h5 hstop
          refine ⟨o :: pre, s, inv0, by rw [hp1]; rfl, hp2, ?_, hp4, hp5⟩
          rw [deliverFrom_cons, hstep]
          exact hp3
      | some l0 =>
        rw [hs] at hslot
        obtain ⟨ho, hstep⟩ := deliverStep_live invoke e acc R o l0 hR hslot.symm
        subst ho
        cases hr : (invoke l0 e).1 with
        | Stop =>
          have hv : visit invoke e (n + 1) i d
              = (.Stop, applyOps d (invoke l0 e).2, [l0]) := by
            simp only [visit, hs, hr]
          rw [hv]
          refine ⟨(applyOps_locked _ d hl).1, [some l0], orig1, rfl, ?_, ?_, ?_⟩
          · simp only [deliverFrom, List.foldl_cons, List.foldl_nil]
            exact hstep
          · intro h
            simp at h
          · intro _
            exact ⟨[], l0, [], rfl, rfl, by simp [deliverFrom], hr, by simp⟩
        | Propagate =>
          have hv : visit invoke e (n + 1) i d
              = ((visit invoke e n (i + 1) (applyOps d (invoke l0 e).2)).1,
                 (visit invoke e n (i + 1) (applyOps d (invoke l0 e).2)).2.1,
                 l0 :: (visit invoke e n (i + 1) (applyOps d (invoke l0 e).2)).2.2) := by
            simp only [visit, hs, hr]
          obtain ⟨hk1, hk2⟩ := applyOps_locked (invoke l0 e).2 d hl
          have hl1 : (applyOps d (invoke l0 e).2).m_locked ≠ 0 := by rw [hk1]; exact hl
          have hn1 : i + 1 + n = (applyOps d (invoke l0 e).2).m_listeners.length := by
            rw [hk2, List.length_map]; omega
          have hR1 : ∀ l, PoolOp.remove l ∈ R ++ (invoke l0 e).2 ↔
              ∃ m, m ∈ acc ++ [l0] ∧ PoolOp.remove l ∈ (invoke m e).2 := by
            intro l
            rw [List.mem_append, hR l]
            constructor
            · rintro (⟨m, hm, hml⟩ | h)
              · exact ⟨m, List.mem_append_left _ hm, hml⟩
              · exact ⟨l0, by simp, h⟩
            · rintro ⟨m, hm, hml⟩
              rcases List.mem_append.mp hm with hm1 | hm2
              · exact Or.inl ⟨m, hm1, hml⟩
              · simp only [List.mem_singleton] at hm2
                subst hm2
                exact Or.inr hml
          have hdrop1 : (applyOps d (invoke l0 e).2).m_listeners.drop (i + 1)
              = orig1.map (tombstone (R ++ (invoke l0 e).2)) := by
            rw [hk2, ← List.map_drop, hrest, List.map_map]
            apply List.map_congr_left
            intro s _
            exact tombstone_append R (invoke l0 e).2 s
          obtain ⟨h1, visited, rest, h2, h3, h4, h5⟩ :=
            ih (i + 1) (applyOps d (invoke l0 e).2) (acc ++ [l0]) (R ++ (invoke l0 e).2) orig1
              hl1 hn1 hR1 hdrop1
          rw [hv]
          refine ⟨by rw [h1, hk1], some l0 :: visited, rest, by rw [h2]; rfl, ?_, ?_, ?_⟩
          · rw [deliverFrom_cons, hstep, h3]
            simp
          · intro hp
            obtain ⟨hrest0, hall⟩ := h4 hp
            refine ⟨hrest0, ?_⟩
            intro l hmem
            rcases List.mem_cons.mp hmem with heq | hin
            · rw [heq]; exact hr
            · exact hall l hin
          · intro hstop
            obtain ⟨pre, s, inv0, hp1, hp2, hp3, hp4, hp5⟩ := h5 hstop
            refine ⟨some l0 :: pre, s, l0 :: inv0, by rw [hp1]; rfl, ?_, ?_, hp4, ?_⟩
            · show l0 :: (visit invoke e n (i + 1) (applyOps d (invoke l0 e).2)).2.2
                = l0 :: inv0 ++ [s]
              rw [hp2]
              rfl
            · rw [deliverFrom_cons, hstep, hp3]
              simp
            · intro l hmem
              rcases List.mem_cons.mp hmem with heq | hin
              · rw [heq]; exact hr
              · exact hp5 l hin

theorem handle_exact (invoke : Nat → Event → ListenerResult × List PoolOp) (d : Data)
    (e : Event) :
    ∃ visited rest, d.m_listeners = visited ++ rest ∧
      (handle invoke d e).invoked = deliver invoke e visited ∧
      ((handle invoke d e).result = .Propagate →
        rest = [] ∧ ∀ l, l ∈ (handle invoke d e).invoked → (invoke l e).1 = .Propagate) ∧
      ((handle invoke d e).result = .Stop →
        ∃ pre s, visited = pre ++ [some s] ∧
          (handle invoke d e).invoked = deliver invoke e pre ++ [s] ∧
          (invoke s e).1 = .Stop ∧
          ∀ l, l ∈ deliver invoke e pre → (invoke l e).1 = .Propagate) := by
  have h := (visit_exact invoke e d.m_listeners.length 0
    { d with m_locked := d.m_locked + 1 } [] [] d.m_listeners (by simp) (by simp) (by simp)
    (by
      simp only [List.drop_zero]
      conv_lhs => rw [← List.map_id d.m_listeners]
      apply List.map_congr_left
      intro s _
      exact (tombstone_nil s).symm)).2
  obtain ⟨visited, rest, h1, h2, h3, h4⟩ := h
  simp only [List.nil_append] at h2
  refine ⟨visited, rest, h1, ?_, ?_, ?_⟩
  · simpa [handle, deliver] using h2.symm
  · simpa [handle] using h3
  · intro hstop
    obtain ⟨pre, s, inv0, hp1, hp2, hp3, hp4, hp5⟩ := h4 (by simpa [handle] using hstop)
    simp only [List.nil_append] at hp3
    refine ⟨pre, s, hp1, ?_, hp4, ?_⟩
    · simp only [deliver, hp3]
      simpa [handle] using hp2
    · simp only [deliver, hp3]
      exact hp5

theorem deliverStep_extends (invoke : Nat → Event → ListenerResult × List PoolOp) (e : Event)
    (acc : List Nat) (o : Option Nat) :
    deliverStep invoke e acc o = acc ∨ ∃ l, o = some l ∧ deliverStep invoke e acc o = acc ++ [l] := by
  cases o with
  | none => exact Or.inl rfl
  | some l =>
    by_cases h : acc.any (fun m => decide (PoolOp.remove l ∈ (invoke m e).2)) = true
    · left
      simp [deliverStep, h]
    · right
      exact ⟨l, rfl, by simp [deliverStep, h]⟩

theorem deliverFrom_extends (invoke : Nat → Event → ListenerResult × List PoolOp) (e : Event)
    (xs : List (Option Nat)) :
    ∀ acc : List Nat, ∃ t, deliverFrom invoke e acc xs = acc ++ t ∧
      ∀ l, t.count l ≤ xs.count (some l) := by
  induction xs with
  | nil =>
    intro acc
    exact ⟨[], by simp [deliverFrom], by simp⟩
  | cons o rest ih =>
    intro acc
    rw [deliverFrom_cons]
    rcases deliverStep_extends invoke e acc o with h | ⟨l, hl, h⟩
    · obtain ⟨t, ht, hc⟩ := ih acc
      rw [h]
      refine ⟨t, ht, ?_⟩
      intro m
      have := hc m
      rw [List.count_cons]
      omega
    · obtain ⟨t, ht, hc⟩ := ih (acc ++ [l])
      rw [h, ht]
      refine ⟨l :: t, by simp, ?_⟩
      intro m
      have := hc m
      subst hl
      by_cases hm : l = m
      · subst hm
        simp only [List.count_cons_self]
        omega
      · have hm2 : m ≠ l := fun h => hm h.symm
        have h1 : (l :: t).count m = t.count m := List.count_cons_of_ne hm2 t
        have h2 : (some l :: rest).count (some m) = rest.count (some m) :=
          List.count_cons_of_ne (by simpa using hm2) rest
        omega

theorem invoked_count_le (invoke : Nat → Event → ListenerResult × List PoolOp)
    (d : Data) (e : Event) (l : Nat) :
    (handle invoke d e).invoked.count l ≤ registrations d l := by
  obtain ⟨visited, rest, h1, h2, _⟩ := handle_exact invoke d e
  obtain ⟨t, ht, hc⟩ := deliverFrom_extends invoke e visited []
  have hle := hc l
  have hsum : d.m_listeners.count (some l) = visited.count (some l) + rest.count (some l) := by
    rw [h1, List.count_append]
  rw [h2]
  simp only [deliver, ht, List.nil_append, registrations]
  omega

theorem invoked_has_slot (invoke : Nat → Event → ListenerResult × List PoolOp)
    (d : Data) (e : Event) (l : Nat) (h : l ∈ (handle invoke d e).invoked) :
    some l ∈ d.m_listeners := by
  have h1 := invoked_count_le invoke d e l
  have h2 := List.count_pos_iff.mpr h
  have h3 : 0 < d.m_listeners.count (some l) + d.m_toAdd.count l := by
    simp only [registrations] at h1
    omega
  obtain ⟨visited, rest, hv, hinv, _⟩ := handle_exact invoke d e
  obtain ⟨t, ht, hc⟩ := deliverFrom_extends invoke e visited []
  rw [hinv] at h2
  simp only [deliver, ht, List.nil_append] at h2
  have h4 := hc l
  have h5 : 0 < visited.count (some l) := by omega
  rw [hv]
  exact List.mem_append_left _ (List.count_pos_iff.mp h5)

theorem handle_invokes_slot (invoke : Nat → Event → ListenerResult × List PoolOp)
    (d : Data) (e : Event) (l : Nat) (pre post : List (Option Nat))
    (hslots : d.m_listeners = pre ++ some l :: post)
    (hquiet : ∀ m, m ∈ deliver invoke e pre →
      (invoke m e).1 = .Propagate ∧ PoolOp.remove l ∉ (invoke m e).2) :
    ∃ t, (handle invoke d e).invoked = deliver invoke e pre ++ l :: t ∧
      ∀ m, t.count m ≤ post.count (some m) := by
  have hstep : deliverStep invoke e (deliver invoke e pre) (some l)
      = deliver invoke e pre ++ [l] := by
    have hany : (deliver invoke e pre).any
        (fun m => decide (PoolOp.remove l ∈ (invoke m e).2)) = false := by
      rw [Bool.eq_false_iff]
      intro ht
      rw [List.any_eq_true] at ht
      obtain ⟨m, hm, hml⟩ := ht
      exact (hquiet m hm).2 (by simpa using hml)
    simp [deliverStep, hany]
  have hlong : ∀ tail : List (Option Nat),
      ∃ t, deliver invoke e (pre ++ some l :: tail) = deliver invoke e pre ++ l :: t ∧
        ∀ m, t.count m ≤ tail.count (some m) := by
    intro tail
    simp only [deliver]
    rw [deliverFrom_append, deliverFrom_cons]
    have hs : deliverStep invoke e (deliverFrom invoke e [] pre) (some l)
        = deliverFrom invoke e [] pre ++ [l] := hstep
    rw [hs]
    obtain ⟨t, ht, hc⟩ := deliverFrom_extends invoke e tail (deliverFrom invoke e [] pre ++ [l])
    exact ⟨t, by rw [ht]; simp, hc⟩
  have hshort : ∀ v c : List (Option Nat), pre = v ++ c →
      ∀ s, s ∈ deliver invoke e v → (invoke s e).1 = .Propagate := by
    intro v c hvc s hs
    apply (hquiet s _).1
    rw [hvc]
    simp only [deliver]
    rw [deliverFrom_append]
    obtain ⟨t, ht, _⟩ := deliverFrom_extends invoke e c (deliverFrom invoke e [] v)
    rw [ht]
    exact List.mem_append_left _ hs
  obtain ⟨visited, rest, h1, h2, h3, h4⟩ := handle_exact invoke d e
  cases hres : (handle invoke d e).result with
  | Propagate =>
    obtain ⟨hrest, _⟩ := h3 hres
    rw [hrest, List.append_nil] at h1
    rw [h2, ← h1, hslots]
    exact hlong post
  | Stop =>
    obtain ⟨pre1, s, hp1, hp2, hp3, _⟩ := h4 hres
    rw [hslots] at h1
    rcases List.append_eq_append_iff.mp h1 with ⟨a1, ha1, ha2⟩ | ⟨c1, hc1, hc2⟩
    · cases a1 with
      | nil =>
        exfalso
        have hv : visited = pre := by simpa using ha1
        have hs : s ∈ deliver invoke e visited := by
          rw [← h2, hp2]
          simp
        have := hshort visited [] (by simp [hv]) s hs
        rw [this] at hp3
        cases hp3
      | cons x a2 =>
        simp only [List.cons_append, List.cons.injEq] at ha2
        rw [h2, ha1, ← ha2.1]
        obtain ⟨t, ht, hc⟩ := hlong a2
        refine ⟨t, ht, ?_⟩
        intro m
        have := hc m
        rw [ha2.2, List.count_append]
        omega
    · exfalso
      have hs : s ∈ deliver invoke e visited := by
        rw [← h2, hp2]
        simp
      have := hshort visited c1 hc1 s hs
      rw [this] at hp3
      cases hp3

/-- C1, amended: for every pool state and every event, `handle` walks the
slots the active collection holds at entry, in registration order. The slots
split into the ones the walk reaches and the ones it does not; the listeners
invoked are exactly, and in this order, the listeners of the reached live
slots that no listener invoked earlier in the same call has removed
(`deliver`), so a listener that is only in the pending collection is not
invoked. With result `Propagate` every slot was reached and every invoked
listener returned `Propagate`; with result `Stop` the last reached slot holds
the listener that returned `Stop`, it is the last one invoked, and every
listener invoked before it returned `Propagate`. The result is `Stop` exactly
when an invoked listener returned `Stop`. Scenario: A (returns `Propagate`)
and then B (returns `Stop`) are constructed on `Foo`; handling a `Foo` event
invokes A, then B, and returns `Stop`. -/
theorem handle_walks_active_slots
    (invoke : Nat → Event → ListenerResult × List PoolOp) (d : Data) (e : Event) :
    (∃ visited rest, d.m_listeners = visited ++ rest ∧
      (handle invoke d e).invoked = deliver invoke e visited ∧
      ((handle invoke d e).result = .Propagate →
        rest = [] ∧ ∀ l, l ∈ (handle invoke d e).invoked → (invoke l e).1 = .Propagate) ∧
      ((handle invoke d e).result = .Stop →
        ∃ pre s, visited = pre ++ [some s] ∧
          (handle invoke d e).invoked = deliver invoke e pre ++ [s] ∧
          (invoke s e).1 = .Stop ∧
          ∀ l, l ∈ deliver invoke e pre → (invoke l e).1 = .Propagate)) ∧
    (∀ l, l ∈ (handle invoke d e).invoked → some l ∈ d.m_listeners) ∧
    ((handle invoke d e).result = .Stop ↔
      ∃ l, l ∈ (handle invoke d e).invoked ∧ (invoke l e).1 = .Stop) ∧
    handle (EventListenerProtocol.handle typeinfo_cast Scenario.worldAB.objs)
        (Scenario.worldAB.pools DefaultEventListenerPool.get) Scenario.fooEvent
      = ⟨.Stop, ⟨0, [some 10, some 11], []⟩, [10, 11]⟩ := by
  refine ⟨handle_exact invoke d e, invoked_has_slot invoke d e, ?_, by decide⟩
  obtain ⟨visited, rest, _, _, h3, h4⟩ := handle_exact invoke d e
  constructor
  · intro hstop
    obtain ⟨pre, s, _, hp2, hp3, _⟩ := h4 hstop
    exact ⟨s, by rw [hp2]; simp, hp3⟩
  · rintro ⟨l, hl, hls⟩
    cases hres : (handle invoke d e).result with
    | Stop => rfl
    | Propagate =>
      have := (h3 hres).2 l hl
      rw [this] at hls
      cases hls

/-- C1 as stated fails in two ways. On the idle pool holding X and then D,
where X removes D and returns `Propagate`, D is a member when `handle` is
called and nobody returns `Stop`, yet only X is invoked. On the pool at
depth 1 holding A, with D in the pending collection, D is a member, yet only
A is invoked and the result is `Propagate`. -/
theorem handle_skips_removed_and_pending_counterexample :
    (isMember Scenario.poolXD 13 ∧
      (EventListenerProtocol.handle typeinfo_cast Scenario.objsXAD 9 Scenario.fooEvent).1
        = .Propagate ∧
      handle (EventListenerProtocol.handle typeinfo_cast Scenario.objsXAD) Scenario.poolXD
          Scenario.fooEvent
        = ⟨.Propagate, ⟨0, [some 9], []⟩, [9]⟩) ∧
    (isMember Scenario.poolAPendingD 13 ∧
      handle (EventListenerProtocol.handle typeinfo_cast Scenario.objsAD)
          Scenario.poolAPendingD Scenario.fooEvent
        = ⟨.Propagate, ⟨1, [some 10], [13]⟩, [10]⟩) := by
  decide

theorem EventFilter.lawful (T : Nat) : LawfulFilter (EventFilter T) :=
  ⟨fun _ _ => rfl, fun _ _ => rfl⟩

/-! ### Registrations under `add` and `remove` -/

theorem registrations_eq_zero (d : Data) (l : Nat) :
    registrations d l = 0 ↔ ¬ isMember d l := by
  simp [registrations, isMember, List.count_eq_zero, not_or]

theorem count_map_some (l : Nat) (ys : List Nat) :
    (ys.map some).count (some l) = ys.count l := by
  induction ys with
  | nil => rfl
  | cons y t ih => simp [List.count_cons, ih]

theorem registrations_settle (d : Data) (l : Nat) :
    registrations (settle d) l = registrations d l := by
  simp only [registrations, settle, List.count_append, List.count_nil, Nat.add_zero]
  rw [List.count_filter (by simp), count_map_some]

theorem count_map_tomb_self (l : Nat) (xs : List (Option Nat)) :
    (xs.map (fun s => if s = some l then none else s)).count (some l) = 0 := by
  rw [List.count_eq_zero]
  intro h
  obtain ⟨s, _, hs⟩ := List.mem_map.mp h
  by_cases heq : s = some l
  · simp [heq] at hs
  · simp [heq] at hs

theorem count_map_tomb_other (l m : Nat) (hne : m ≠ l) (xs : List (Option Nat)) :
    (xs.map (fun s => if s = some l then none else s)).count (some m) = xs.count (some m) := by
  induction xs with
  | nil => rfl
  | cons s t ih =>
    by_cases heq : s = some l
    · subst heq
      simp only [List.map_cons, if_true, List.count_cons, ih]
      simp [hne, Ne.symm hne]
    · simp only [List.map_cons, heq, if_false, List.count_cons, ih]

theorem count_filter_slot_self (l : Nat) (xs : List (Option Nat)) :
    (xs.filter (fun s => decide (s ≠ some l))).count (some l) = 0 := by
  rw [List.count_eq_zero]
  intro h
  have := (List.mem_filter.mp h).2
  simp at this

theorem count_filter_slot_other (l m : Nat) (hne : m ≠ l) (xs : List (Option Nat)) :
    (xs.filter (fun s => decide (s ≠ some l))).count (some m) = xs.count (some m) := by
  rw [List.count_filter]
  simpa using hne

theorem count_filter_pending_self (l : Nat) (xs : List Nat) :
    (xs.filter (fun s => decide (s ≠ l))).count l = 0 := by
  rw [List.count_eq_zero]
  intro h
  have := (List.mem_filter.mp h).2
  simp at this

theorem count_filter_pending_other (l m : Nat) (hne : m ≠ l) (xs : List Nat) :
    (xs.filter (fun s => decide (s ≠ l))).count m = xs.count m := by
  rw [List.count_filter]
  simpa using hne

theorem registrations_remove_self (d : Data) (l : Nat) :
    registrations (remove d l) l = 0 := by
  by_cases h0 : d.m_locked = 0
  · simp only [remove, h0, if_true, registrations]
    rw [count_filter_slot_self]
    simp [settle]
  · simp only [remove, h0, if_false, registrations]
    rw [count_map_tomb_self, count_filter_pending_self]

theorem registrations_remove_other (d : Data) (l m : Nat) (hne : m ≠ l) :
    registrations (remove d l) m = registrations d m := by
  by_cases h0 : d.m_locked = 0
  · rw [← registrations_settle d m]
    simp only [remove, h0, if_true, registrations]
    rw [count_filter_slot_other l m hne]
  · simp only [remove, h0, if_false, registrations]
    rw [count_map_tomb_other l m hne, count_filter_pending_other l m hne]

theorem registrations_add_self (d : Data) (l : Nat) (h : registrations d l = 0) :
    registrations (add d l).2 l = 1 := by
  have hmem := (registrations_eq_zero d l).mp h
  have hs := registrations_settle d l
  rw [h] at hs
  by_cases h0 : d.m_locked = 0
  · simp only [add, hmem, if_false, h0, if_true]
    simp only [registrations] at hs ⊢
    simp only [List.count_append, List.count_singleton_self]
    omega
  · simp only [add, hmem, if_false, h0]
    simp only [registrations] at h ⊢
    simp only [List.count_append, List.count_singleton_self]
    omega

theorem registrations_add_other (d : Data) (l m : Nat) (hne : m ≠ l) :
    registrations (add d l).2 m = registrations d m := by
  by_cases hmem : isMember d l
  · simp [add, hmem]
  · by_cases h0 : d.m_locked = 0
    · rw [← registrations_settle d m]
      simp only [add, hmem, if_false, h0, if_true, registrations]
      simp [List.count_singleton, Ne.symm hne]
    · simp only [add, hmem, if_false, h0, registrations]
      simp [List.count_singleton, Ne.symm hne]

theorem remove_locked (d : Data) (l : Nat) : (remove d l).m_locked = d.m_locked := by
  by_cases h : d.m_locked = 0 <;> simp [remove, h, settle]

/-! ### Listener objects: `enable`, `disable` and the constructors -/

theorem enable_of_disabled {F : Type} [is_filter F] (w : World F) (a p : Nat) (h1 : (w.objs a).m_pool = none)
    (h2 : is_filter.getPool (w.objs a).m_filter = some p) :
    (EventListenerProtocol.enable w a).2
      = (w.storePool p (add (w.pools p) a).2).store a { w.objs a with m_pool := some p } := by
  simp only [EventListenerProtocol.enable, EventListener.getPool, h1, h2]

theorem enable_of_enabled {F : Type} [is_filter F] (w : World F) (a q : Nat) (h : (w.objs a).m_pool = some q) :
    (EventListenerProtocol.enable w a).2 = w := by
  simp only [EventListenerProtocol.enable, h]

theorem disable_of_enabled {F : Type} (w : World F) (b p : Nat) (h : (w.objs b).m_pool = some p) :
    EventListenerProtocol.disable w b
      = (w.storePool p (remove (w.pools p) b)).store b { w.objs b with m_pool := none } := by
  simp only [EventListenerProtocol.disable, h]

theorem construct_eq {F : Type} [is_filter F] (w : World F) (this p : Nat) (fn : Option Callback) (filter : F)
    (hlaw : LawfulFilter F) (hp : is_filter.getPool filter = some p) :
    (EventListenerProtocol.enable
        (EventListener.bindOwner
          (w.store this { m_pool := none, m_callback := fn, m_filter := filter }) this) this).2
      = { pools := Function.update w.pools p (add (w.pools p) this).2
          objs := Function.update w.objs this
            { m_pool := some p, m_callback := fn,
              m_filter := is_filter.setListener filter (some this) } } := by
  rw [enable_of_disabled _ this p]
  · simp [EventListener.bindOwner, World.store, World.storePool]
  · simp [EventListener.bindOwner, World.store]
  · simp [EventListener.bindOwner, World.store, hlaw.pool, hp]

theorem ctorFunction_eq {F : Type} [is_filter F] (w : World F) (this p : Nat) (fn : Option Callback) (filter : F)
    (hlaw : LawfulFilter F) (hp : is_filter.getPool filter = some p) :
    EventListener.ctorFunction w this fn filter
      = { pools := Function.update w.pools p (add (w.pools p) this).2
          objs := Function.update w.objs this
            { m_pool := some p, m_callback := fn,
              m_filter := is_filter.setListener filter (some this) } } :=
  construct_eq w this p fn filter hlaw hp

theorem ctorMember_eq {F C : Type} [is_filter F] (w : World F) (this p : Nat) (cls : C)
    (fn : C → Event → ListenerResult × List PoolOp) (filter : F)
    (hlaw : LawfulFilter F) (hp : is_filter.getPool filter = some p) :
    EventListener.ctorMember w this cls fn filter
      = { pools := Function.update w.pools p (add (w.pools p) this).2
          objs := Function.update w.objs this
            { m_pool := some p, m_callback := some (fun e => fn cls e),
              m_filter := is_filter.setListener
                (is_filter.setListener filter (some this)) (some this) } } := by
  simp only [EventListener.ctorMember]
  rw [ctorFunction_eq w this p _ filter hlaw hp]
  rw [enable_of_enabled _ this p]
  · simp [EventListener.bindOwner, World.store]
  · simp [EventListener.bindOwner, World.store]

theorem registrations_after_add (pools : Nat → Data) (p this : Nat)
    (hfresh : ∀ q, registrations (pools q) this = 0) (q : Nat) :
    registrations (Function.update pools p (add (pools p) this).2 q) this
      = if q = p then 1 else 0 := by
  by_cases hq : q = p
  · subst hq
    simp [registrations_add_self _ _ (hfresh q)]
  · simp [hq, hfresh q]

theorem ctorMove_eq {F : Type} [is_filter F] (w : World F) (a b p : Nat) (hlaw : LawfulFilter F) (hab : a ≠ b)
    (hb : (w.objs b).m_pool = some p)
    (hsel : is_filter.getPool (w.objs b).m_filter = some p) :
    EventListener.ctorMove w a b
      = { pools := Function.update w.pools p (add (remove (w.pools p) b) a).2
          objs := Function.update
            (Function.update w.objs b { w.objs b with m_callback := none, m_pool := none }) a
            { m_pool := some p, m_callback := (w.objs b).m_callback,
              m_filter := is_filter.setListener (w.objs b).m_filter (some a) } } := by
  have hba : b ≠ a := Ne.symm hab
  simp only [EventListener.ctorMove]
  rw [enable_of_disabled _ a p]
  · rw [disable_of_enabled _ b p]
    · simp [EventListener.bindOwner, World.store, World.storePool, hab, hba,
        Function.update_comm hab]
    · simp [EventListener.bindOwner, World.store, hab, hba, hb]
  · rw [disable_of_enabled _ b p]
    · simp [EventListener.bindOwner, World.store, World.storePool, hab, hba]
    · simp [EventListener.bindOwner, World.store, hab, hba, hb]
  · rw [disable_of_enabled _ b p]
    · simp [EventListener.bindOwner, World.store, World.storePool, hab, hba, hlaw.pool, hsel]
    · simp [EventListener.bindOwner, World.store, hab, hba, hb]

theorem assignMove_eq {F : Type} [is_filter F] (w : World F) (a b p : Nat) (hab : a ≠ b)
    (hb : (w.objs b).m_pool = some p) :
    EventListener.assignMove w a b
      = { pools := Function.update w.pools p (remove (w.pools p) b)
          objs := Function.update
            (Function.update w.objs b { w.objs b with m_callback := none, m_pool := none }) a
            { m_pool := (w.objs a).m_pool, m_callback := (w.objs b).m_callback,
              m_filter := is_filter.setListener (w.objs b).m_filter (some a) } } := by
  have hba : b ≠ a := Ne.symm hab
  simp only [EventListener.assignMove, hab, if_false]
  rw [disable_of_enabled _ b p]
  · simp [EventListener.bindOwner, World.store, World.storePool, hab, hba,
      Function.update_comm hab]
  · simp [EventListener.bindOwner, World.store, hab, hba, hb]

/-! ### Dispatch to one listener -/

/-- C2: for every listener and every event that the downcast to the event type
of its filter rejects, `EventListener::handle` returns `Propagate` and the
user callback is called zero times (and no pool call is made). -/
theorem handle_wrong_type_propagates {F : Type} [is_filter F]
    (cast : Nat → Event → Option Event) (l : EventListener F) (e : Event)
    (hcast : cast (is_filter.Event F) e = none) :
    ∃ inv, l.handle cast e = .ok inv ∧ inv.result = .Propagate ∧ inv.calls.length = 0 ∧
      inv.ops = [] := by
  refine ⟨⟨.Propagate, [], []⟩, ?_, rfl, rfl, rfl⟩
  simp only [EventListener.handle, hcast]
  split <;> rfl

/-- Witness for C2: a `Foo` listener with a callback that returns `Stop` is
handed a `Bar` event. -/
theorem handle_wrong_type_propagates_witness :
    typeinfo_cast Scenario.Foo Scenario.barEvent = none ∧
    ∃ inv, (Scenario.worldAB.objs 11).handle typeinfo_cast Scenario.barEvent = .ok inv ∧
      inv.result = .Propagate ∧ inv.calls.length = 0 ∧ inv.ops = [] :=
  ⟨by decide,
    handle_wrong_type_propagates typeinfo_cast (Scenario.worldAB.objs 11) Scenario.barEvent
      (by decide)⟩

/-- C3: for every `EventListener<EventFilter<T>>` with a bound callback `f` and
every event the downcast to `T` accepts, `EventListener::handle` calls `f`
exactly once, on the downcast event, and returns exactly the result of `f`. -/
theorem handle_matching_type_calls_once {T : Nat}
    (cast : Nat → Event → Option Event) (l : EventListener (EventFilter T)) (e myev : Event)
    (f : Callback) (hbound : l.m_callback = some f) (hcast : cast T e = some myev) :
    ∃ inv, l.handle cast e = .ok inv ∧ inv.calls = [myev] ∧ inv.result = (f myev).1 ∧
      inv.ops = (f myev).2 := by
  refine ⟨⟨(f myev).1, [myev], (f myev).2⟩, ?_, rfl, rfl, rfl⟩
  have hT : is_filter.Event (EventFilter T) = T := rfl
  simp only [EventListener.handle, hbound, hT, hcast, Option.isSome_some, if_true]
  rfl

/-- Witness for C3: listener B, whose callback returns `Stop`, is handed a
`Foo` event. -/
theorem handle_matching_type_calls_once_witness :
    ∃ inv, (Scenario.worldAB.objs 11).handle typeinfo_cast Scenario.fooEvent = .ok inv ∧
      inv.calls = [Scenario.fooEvent] ∧ inv.result = (Scenario.cbStop Scenario.fooEvent).1 ∧
      inv.ops = (Scenario.cbStop Scenario.fooEvent).2 :=
  handle_matching_type_calls_once typeinfo_cast (Scenario.worldAB.objs 11) Scenario.fooEvent
    Scenario.fooEvent Scenario.cbStop rfl rfl

/-- C10: for every listener whose callback is empty and every event, also one
of the event type of its filter, `EventListener::handle` returns normally with
`Propagate`, calls no callback and makes no pool call: the empty
`std::function` is never called, so `bad_function_call` cannot be raised. -/
theorem handle_without_callback_propagates {F : Type} [is_filter F]
    (cast : Nat → Event → Option Event) (l : EventListener F) (e : Event)
    (hempty : l.m_callback = none) :
    ∃ inv, l.handle cast e = .ok inv ∧ inv.result = .Propagate ∧ inv.calls = [] ∧
      inv.ops = [] := by
  refine ⟨⟨.Propagate, [], []⟩, ?_, rfl, rfl, rfl⟩
  simp [EventListener.handle, hempty]

/-- Witness for C10: a listener constructed from a filter only is handed an
event of its own event type. -/
theorem handle_without_callback_propagates_witness :
    ((EventListener.ctorFilter Scenario.emptyWorld 10 {}).objs 10).m_callback = none ∧
    typeinfo_cast Scenario.Foo Scenario.fooEvent = some Scenario.fooEvent ∧
    ∃ inv, ((EventListener.ctorFilter Scenario.emptyWorld 10 {}).objs 10).handle typeinfo_cast
        Scenario.fooEvent = .ok inv ∧
      inv.result = .Propagate ∧ inv.calls = [] ∧ inv.ops = [] :=
  ⟨rfl, by decide,
    handle_without_callback_propagates typeinfo_cast
      ((EventListener.ctorFilter Scenario.emptyWorld 10 {}).objs 10) Scenario.fooEvent rfl⟩

/-! ### Construction, copy and move -/

theorem Scenario.worldB_fresh (this : Nat) (hthis : this ≠ 11) (q : Nat) :
    registrations (Scenario.worldB.pools q) this = 0 := by
  rw [registrations_eq_zero]
  have hw : Scenario.worldB.pools
      = Function.update (fun _ => ({} : Data)) 0 ⟨0, [some 11], []⟩ := by
    funext r
    by_cases hr : r = 0
    · subst hr; rfl
    · simp only [Function.update_noteq hr]
      simp [Scenario.worldB, Scenario.emptyWorld, EventListener.ctorFunction,
        EventListenerProtocol.enable, EventListener.bindOwner, World.store, World.storePool,
        EventListener.getPool, is_filter.getPool, EventFilter.getPool,
        DefaultEventListenerPool.get, Function.update_noteq hr]
  rw [hw]
  by_cases hq : q = 0
  · subst hq
    simp [isMember, hthis]
  · simp [Function.update_noteq hq, isMember]

theorem Scenario.emptyWorld_fresh (this q : Nat) :
    registrations (Scenario.emptyWorld.pools q) this = 0 := by
  simp [Scenario.emptyWorld, registrations]

theorem add_idle_listeners (d : Data) (l : Nat) (hidle : d.m_locked = 0)
    (h : registrations d l = 0) :
    (add d l).2.m_listeners = (settle d).m_listeners ++ [some l] := by
  have hmem := (registrations_eq_zero d l).mp h
  simp [add, hmem, hidle]

theorem add_busy_pending (d : Data) (l : Nat) (hbusy : d.m_locked ≠ 0)
    (h : registrations d l = 0) : l ∈ (add d l).2.m_toAdd := by
  have hmem := (registrations_eq_zero d l).mp h
  simp [add, hmem, hbusy]

/-- C5, amended: move-constructing `a` from an enabled listener `b` (registered
in the pool `p` its filter selects, and in no other) leaves `a` with the
former callback and filter of `b`, the filter owned by `a`, and `a` registered
exactly once, in `p`, while `b` has no pool and is registered nowhere. A
dispatch on any pool after the move invokes `a` at most once and `b` never.
When no dispatch is running on `p` at the move, `a` holds the last slot of `p`
and a dispatch on `p` after the move invokes `a`, as the last listener,
provided every listener it invokes from the slots before returns `Propagate`
and does not remove `a`. When a dispatch is running on `p` at the move, `a` is
in the pending collection of `p`, has no live slot, and a dispatch on `p`
after the move does not invoke `a`. -/
theorem move_constructor_moves_subscription {F : Type} [is_filter F] (w : World F)
    (a b p : Nat) (hlaw : LawfulFilter F) (hab : a ≠ b)
    (henabled : (w.objs b).m_pool = some p)
    (hsel : is_filter.getPool (w.objs b).m_filter = some p)
    (hfresh : ∀ q, registrations (w.pools q) a = 0)
    (honly : ∀ q, q ≠ p → registrations (w.pools q) b = 0) :
    ((EventListener.ctorMove w a b).objs a).m_callback = (w.objs b).m_callback ∧
    ((EventListener.ctorMove w a b).objs a).m_filter
      = is_filter.setListener (w.objs b).m_filter (some a) ∧
    is_filter.getListener ((EventListener.ctorMove w a b).objs a).m_filter = some a ∧
    is_filter.getPool ((EventListener.ctorMove w a b).objs a).m_filter = some p ∧
    ((EventListener.ctorMove w a b).objs a).m_pool = some p ∧
    (∀ q, registrations ((EventListener.ctorMove w a b).pools q) a = if q = p then 1 else 0) ∧
    ((EventListener.ctorMove w a b).objs b).m_pool = none ∧
    (∀ q, registrations ((EventListener.ctorMove w a b).pools q) b = 0) ∧
    (∀ q (invoke : Nat → Event → ListenerResult × List PoolOp) (e : Event),
      (handle invoke ((EventListener.ctorMove w a b).pools q) e).invoked.count a ≤ 1 ∧
      b ∉ (handle invoke ((EventListener.ctorMove w a b).pools q) e).invoked) ∧
    ((w.pools p).m_locked = 0 →
      ∃ pre, ((EventListener.ctorMove w a b).pools p).m_listeners = pre ++ [some a] ∧
        ∀ (invoke : Nat → Event → ListenerResult × List PoolOp) (e : Event),
          (∀ m, m ∈ deliver invoke e pre →
            (invoke m e).1 = .Propagate ∧ PoolOp.remove a ∉ (invoke m e).2) →
          (handle invoke ((EventListener.ctorMove w a b).pools p) e).invoked
            = deliver invoke e pre ++ [a]) ∧
    ((w.pools p).m_locked ≠ 0 →
      a ∈ ((EventListener.ctorMove w a b).pools p).m_toAdd ∧
      some a ∉ ((EventListener.ctorMove w a b).pools p).m_listeners ∧
      ∀ (invoke : Nat → Event → ListenerResult × List PoolOp) (e : Event),
        a ∉ (handle invoke ((EventListener.ctorMove w a b).pools p) e).invoked) := by
  have hba : b ≠ a := Ne.symm hab
  have hregA : ∀ q, registrations ((EventListener.ctorMove w a b).pools q) a
      = if q = p then 1 else 0 := by
    rw [ctorMove_eq w a b p hlaw hab henabled hsel]
    intro q
    by_cases hq : q = p
    · subst hq
      simp only [Function.update_same, if_true]
      apply registrations_add_self
      rw [registrations_remove_other _ _ _ hab]
      exact hfresh q
    · simp [hq, hfresh q]
  have hregB : ∀ q, registrations ((EventListener.ctorMove w a b).pools q) b = 0 := by
    rw [ctorMove_eq w a b p hlaw hab henabled hsel]
    intro q
    by_cases hq : q = p
    · subst hq
      simp only [Function.update_same]
      rw [registrations_add_other _ _ _ hba]
      exact registrations_remove_self _ _
    · simp [hq, honly q hq]
  refine ⟨?_, ?_, ?_, ?_, ?_, hregA, ?_, hregB, ?_, ?_, ?_⟩
  · rw [ctorMove_eq w a b p hlaw hab henabled hsel]; simp
  · rw [ctorMove_eq w a b p hlaw hab henabled hsel]; simp
  · rw [ctorMove_eq w a b p hlaw hab henabled hsel]; simp [hlaw.owner]
  · rw [ctorMove_eq w a b p hlaw hab henabled hsel]; simp [hlaw.pool, hsel]
  · rw [ctorMove_eq w a b p hlaw hab henabled hsel]; simp
  · rw [ctorMove_eq w a b p hlaw hab henabled hsel]; simp [hba]
  · intro q invoke e
    constructor
    · have h1 := invoked_count_le invoke ((EventListener.ctorMove w a b).pools q) e a
      have h2 := hregA q
      by_cases hq : q = p
      · simp only [hq, if_true] at h2
        subst hq
        omega
      · simp only [hq, if_false] at h2
        omega
    · intro hin
      have h1 := invoked_count_le invoke ((EventListener.ctorMove w a b).pools q) e b
      rw [hregB q] at h1
      have h2 := List.count_pos_iff.mpr hin
      omega
  · intro hidle
    have hslots : ((EventListener.ctorMove w a b).pools p).m_listeners
        = (settle (remove (w.pools p) b)).m_listeners ++ [some a] := by
      rw [ctorMove_eq w a b p hlaw hab henabled hsel]
      simp only [Function.update_same]
      apply add_idle_listeners
      · rw [remove_locked]; exact hidle
      · rw [registrations_remove_other _ _ _ hab]
        exact hfresh p
    refine ⟨(settle (remove (w.pools p) b)).m_listeners, hslots, ?_⟩
    intro invoke e hquiet
    obtain ⟨t, ht, hc⟩ := handle_invokes_slot invoke ((EventListener.ctorMove w a b).pools p) e a
      _ [] hslots hquiet
    have hnil : t = [] := by
      apply List.eq_nil_iff_forall_not_mem.mpr
      intro m hm
      have h1 := hc m
      have h2 := List.count_pos_iff.mpr hm
      simp only [List.count_nil] at h1
      omega
    rw [ht, hnil]
  · intro hbusy
    have hpending : a ∈ ((EventListener.ctorMove w a b).pools p).m_toAdd := by
      rw [ctorMove_eq w a b p hlaw hab henabled hsel]
      simp only [Function.update_same]
      apply add_busy_pending
      · rw [remove_locked]; exact hbusy
      · rw [registrations_remove_other _ _ _ hab]
        exact hfresh p
    have hnoslot : some a ∉ ((EventListener.ctorMove w a b).pools p).m_listeners := by
      intro hin
      have h1 := hregA p
      simp only [if_true, registrations] at h1
      have h2 := List.count_pos_iff.mpr hin
      have h3 := List.count_pos_iff.mpr hpending
      omega
    refine ⟨hpending, hnoslot, ?_⟩
    intro invoke e hin
    exact hnoslot (invoked_has_slot invoke _ e a hin)

/-- Witness for C5: listener B at address 11 is moved into a new listener at
address 12 while the default pool is idle; a `Foo` event then reaches the new
listener. -/
theorem move_constructor_moves_subscription_witness :
    (Scenario.worldB.objs 11).m_pool = some 0 ∧
    registrations (Scenario.worldB.pools 0) 11 = 1 ∧
    is_filter.getListener ((EventListener.ctorMove Scenario.worldB 12 11).objs 12).m_filter
      = some 12 ∧
    ((EventListener.ctorMove Scenario.worldB 12 11).objs 12).m_pool = some 0 ∧
    registrations ((EventListener.ctorMove Scenario.worldB 12 11).pools 0) 12 = 1 ∧
    ((EventListener.ctorMove Scenario.worldB 12 11).objs 11).m_pool = none ∧
    registrations ((EventListener.ctorMove Scenario.worldB 12 11).pools 0) 11 = 0 ∧
    (handle (EventListenerProtocol.handle typeinfo_cast
        (EventListener.ctorMove Scenario.worldB 12 11).objs)
      ((EventListener.ctorMove Scenario.worldB 12 11).pools 0) Scenario.fooEvent).invoked
      = [12] :=
  have h := move_constructor_moves_subscription Scenario.worldB 12 11 0
    (EventFilter.lawful Scenario.Foo) (by decide) rfl rfl
    (Scenario.worldB_fresh 12 (by decide))
    (fun q hq => by
      rw [registrations_eq_zero]
      have : Scenario.worldB.pools q = ({} : Data) := by
        simp [Scenario.worldB, Scenario.emptyWorld, EventListener.ctorFunction,
          EventListenerProtocol.enable, EventListener.bindOwner, World.store, World.storePool,
          EventListener.getPool, is_filter.getPool, EventFilter.getPool,
          DefaultEventListenerPool.get, Function.update_noteq hq]
      simp [this, isMember])
  ⟨rfl, by decide, h.2.2.1, h.2.2.2.2.1, by simpa using h.2.2.2.2.2.1 0, h.2.2.2.2.2.2.1,
    h.2.2.2.2.2.2.2.1 0, by decide⟩

/-- C5 as stated fails in three ways. When the move happens while a dispatch
is running on the pool (depth 1), as it does inside a callback, B at address
11 is enabled and registered once, and after it is moved into the listener at
address 12 the slot of B is marked removed and the new listener is only in the
pending collection, so a `Foo` event handled next on that pool reaches
neither. On an idle pool where S, registered before B, returns `Stop`, the
event stops at S and does not reach the new listener. On an idle pool where R,
registered before B, removes the new listener, the event reaches R only. -/
theorem move_constructor_during_dispatch_counterexample :
    ((Scenario.worldBBusy.objs 11).m_pool = some 0 ∧
      registrations (Scenario.worldBBusy.pools 0) 11 = 1 ∧
      registrations (Scenario.worldBBusy.pools 0) 12 = 0 ∧
      ((EventListener.ctorMove Scenario.worldBBusy 12 11).objs 12).m_pool = some 0 ∧
      (EventListener.ctorMove Scenario.worldBBusy 12 11).pools 0 = ⟨1, [none], [12]⟩ ∧
      (EventListenerProtocol.handle typeinfo_cast
        (EventListener.ctorMove Scenario.worldBBusy 12 11).objs 12 Scenario.fooEvent).1
        = .Stop ∧
      handle (EventListenerProtocol.handle typeinfo_cast
          (EventListener.ctorMove Scenario.worldBBusy 12 11).objs)
        ((EventListener.ctorMove Scenario.worldBBusy 12 11).pools 0) Scenario.fooEvent
        = ⟨.Propagate, ⟨1, [none], [12]⟩, []⟩) ∧
    ((Scenario.worldStopFirst.objs 11).m_pool = some 0 ∧
      Scenario.worldStopFirst.pools 0 = ⟨0, [some 10, some 11], []⟩ ∧
      (EventListener.ctorMove Scenario.worldStopFirst 12 11).pools 0
        = ⟨0, [some 10, some 12], []⟩ ∧
      handle (EventListenerProtocol.handle typeinfo_cast
          (EventListener.ctorMove Scenario.worldStopFirst 12 11).objs)
        ((EventListener.ctorMove Scenario.worldStopFirst 12 11).pools 0) Scenario.fooEvent
        = ⟨.Stop, ⟨0, [some 10, some 12], []⟩, [10]⟩) ∧
    ((Scenario.worldRemoverFirst.objs 11).m_pool = some 0 ∧
      Scenario.worldRemoverFirst.pools 0 = ⟨0, [some 10, some 11], []⟩ ∧
      (EventListener.ctorMove Scenario.worldRemoverFirst 12 11).pools 0
        = ⟨0, [some 10, some 12], []⟩ ∧
      handle (EventListenerProtocol.handle typeinfo_cast
          (EventListener.ctorMove Scenario.worldRemoverFirst 12 11).objs)
        ((EventListener.ctorMove Scenario.worldRemoverFirst 12 11).pools 0) Scenario.fooEvent
        = ⟨.Propagate, ⟨0, [some 10], []⟩, [10]⟩) := by
  decide

theorem ctorCopy_eq {F : Type} [is_filter F] (w : World F) (a b p : Nat)
    (hlaw : LawfulFilter F) (hsel : is_filter.getPool (w.objs b).m_filter = some p) :
    EventListener.ctorCopy w a b
      = { pools := Function.update w.pools p (add (w.pools p) a).2
          objs := Function.update w.objs a
            { m_pool := some p, m_callback := (w.objs b).m_callback,
              m_filter := is_filter.setListener (w.objs b).m_filter (some a) } } :=
  construct_eq w a p _ _ hlaw hsel

/-- C6: copy-constructing `a` from any listener `b` gives `a` a copy of the
callback and of the filter of `b`, with the back-reference of the copy set to
`a`, and registers `a` exactly once, in the pool `p` its filter selects; the
object `b` (callback, filter, back-reference, pool) and its registrations in
every pool are what they were. -/
theorem copy_constructor_registers_independently {F : Type} [is_filter F] (w : World F)
    (a b p : Nat) (hlaw : LawfulFilter F) (hab : a ≠ b)
    (hsel : is_filter.getPool (w.objs b).m_filter = some p)
    (hfresh : ∀ q, registrations (w.pools q) a = 0) :
    ((EventListener.ctorCopy w a b).objs a).m_callback = (w.objs b).m_callback ∧
    ((EventListener.ctorCopy w a b).objs a).m_filter
      = is_filter.setListener (w.objs b).m_filter (some a) ∧
    is_filter.getListener ((EventListener.ctorCopy w a b).objs a).m_filter = some a ∧
    is_filter.getPool ((EventListener.ctorCopy w a b).objs a).m_filter = some p ∧
    ((EventListener.ctorCopy w a b).objs a).m_pool = some p ∧
    (∀ q, registrations ((EventListener.ctorCopy w a b).pools q) a = if q = p then 1 else 0) ∧
    (EventListener.ctorCopy w a b).objs b = w.objs b ∧
    (∀ q, registrations ((EventListener.ctorCopy w a b).pools q) b
      = registrations (w.pools q) b) := by
  have hba : b ≠ a := Ne.symm hab
  rw [ctorCopy_eq w a b p hlaw hsel]
  refine ⟨by simp, by simp, by simp [hlaw.owner], by simp [hlaw.pool, hsel], by simp,
    registrations_after_add w.pools p a hfresh, by simp [hba], ?_⟩
  intro q
  by_cases hq : q = p
  · subst hq
    simp only [Function.update_same]
    exact registrations_add_other _ _ _ hba
  · simp [hq]

/-- Witness for C6: listener B at address 11 is copied into a new listener at
address 12. -/
theorem copy_constructor_registers_independently_witness :
    is_filter.getListener ((EventListener.ctorCopy Scenario.worldB 12 11).objs 12).m_filter
      = some 12 ∧
    ((EventListener.ctorCopy Scenario.worldB 12 11).objs 12).m_pool = some 0 ∧
    registrations ((EventListener.ctorCopy Scenario.worldB 12 11).pools 0) 12 = 1 ∧
    (EventListener.ctorCopy Scenario.worldB 12 11).objs 11 = Scenario.worldB.objs 11 ∧
    registrations ((EventListener.ctorCopy Scenario.worldB 12 11).pools 0) 11 = 1 :=
  have h := copy_constructor_registers_independently Scenario.worldB 12 11 0
    (EventFilter.lawful Scenario.Foo) (by decide) rfl (Scenario.worldB_fresh 12 (by decide))
  ⟨h.2.2.1, h.2.2.2.2.1, by simpa using h.2.2.2.2.2.1 0, h.2.2.2.2.2.2.1,
    (h.2.2.2.2.2.2.2 0).trans (by decide)⟩

/-- C9: each of the three constructors (callable, function pointer, object
with member function) leaves the filter of the new listener owned by the new
listener and the listener registered exactly once, in the pool `p` its filter
selects, and in no other pool. The second `enable()` of the member-function
constructor finds the listener already in a pool and registers nothing. -/
theorem constructors_register_exactly_once {F C : Type} [is_filter F] (w : World F)
    (this p : Nat) (fn fnptr : Option Callback) (cls : C)
    (memfn : C → Event → ListenerResult × List PoolOp) (filter : F)
    (hlaw : LawfulFilter F) (hsel : is_filter.getPool filter = some p)
    (hfresh : ∀ q, registrations (w.pools q) this = 0) :
    (is_filter.getListener ((EventListener.ctorFunction w this fn filter).objs this).m_filter
        = some this ∧
      ((EventListener.ctorFunction w this fn filter).objs this).m_pool = some p ∧
      ∀ q, registrations ((EventListener.ctorFunction w this fn filter).pools q) this
        = if q = p then 1 else 0) ∧
    (is_filter.getListener ((EventListener.ctorFnPtr w this fnptr filter).objs this).m_filter
        = some this ∧
      ((EventListener.ctorFnPtr w this fnptr filter).objs this).m_pool = some p ∧
      ∀ q, registrations ((EventListener.ctorFnPtr w this fnptr filter).pools q) this
        = if q = p then 1 else 0) ∧
    (is_filter.getListener
        ((EventListener.ctorMember w this cls memfn filter).objs this).m_filter = some this ∧
      ((EventListener.ctorMember w this cls memfn filter).objs this).m_pool = some p ∧
      ∀ q, registrations ((EventListener.ctorMember w this cls memfn filter).pools q) this
        = if q = p then 1 else 0) := by
  refine ⟨?_, ?_, ?_⟩
  · rw [ctorFunction_eq w this p fn filter hlaw hsel]
    exact ⟨by simp [hlaw.owner], by simp, registrations_after_add w.pools p this hfresh⟩
  · have h : EventListener.ctorFnPtr w this fnptr filter
        = EventListener.ctorFunction w this fnptr filter := rfl
    rw [h, ctorFunction_eq w this p fnptr filter hlaw hsel]
    exact ⟨by simp [hlaw.owner], by simp, registrations_after_add w.pools p this hfresh⟩
  · rw [ctorMember_eq w this p cls memfn filter hlaw hsel]
    exact ⟨by simp [hlaw.owner], by simp, registrations_after_add w.pools p this hfresh⟩

/-- Witness for C9: the three constructors at address 10 of the empty world;
the default pool then holds exactly the slot of the new listener. -/
theorem constructors_register_exactly_once_witness :
    (EventListener.ctorFunction Scenario.emptyWorld 10 (some Scenario.cbStop)
        ({} : EventFilter Scenario.Foo)).pools 0 = ⟨0, [some 10], []⟩ ∧
    (EventListener.ctorMember Scenario.emptyWorld 10 () Scenario.memberStop
        ({} : EventFilter Scenario.Foo)).pools 0 = ⟨0, [some 10], []⟩ ∧
    registrations ((EventListener.ctorMember Scenario.emptyWorld 10 () Scenario.memberStop
        ({} : EventFilter Scenario.Foo)).pools 0) 10 = 1 :=
  have h := constructors_register_exactly_once Scenario.emptyWorld 10 0
    (some Scenario.cbStop) none () Scenario.memberStop ({} : EventFilter Scenario.Foo)
    (EventFilter.lawful Scenario.Foo) rfl (Scenario.emptyWorld_fresh 10)
  ⟨by decide, by decide, by simpa using h.2.2.2.2 0⟩

/-- C8, the failing input: A and B are constructed, A is disabled, and then
`A = std::move(B)` runs. Afterwards A holds the callback of B (it returns
`Stop` on a `Foo` event) and its filter is owned by A, but neither A nor B is
in the default pool: the pool is empty and a `Foo` event reaches nobody. The
move constructor on the same input registers the new listener. Assigning a
listener to itself changes nothing. -/
theorem move_assignment_to_disabled_loses_subscription :
    (Scenario.worldADisabled.objs 10).m_pool = none ∧
    (Scenario.worldADisabled.objs 11).m_pool = some 0 ∧
    Scenario.worldADisabled.pools 0 = ⟨0, [some 11], []⟩ ∧
    ((EventListener.assignMove Scenario.worldADisabled 10 11).objs 10).m_pool = none ∧
    ((EventListener.assignMove Scenario.worldADisabled 10 11).objs 11).m_pool = none ∧
    ((EventListener.assignMove Scenario.worldADisabled 10 11).objs 10).m_filter.getListener
      = some 10 ∧
    (EventListenerProtocol.handle typeinfo_cast
      (EventListener.assignMove Scenario.worldADisabled 10 11).objs 10 Scenario.fooEvent).1
      = .Stop ∧
    (EventListener.assignMove Scenario.worldADisabled 10 11).pools 0 = ⟨0, [], []⟩ ∧
    handle (EventListenerProtocol.handle typeinfo_cast
        (EventListener.assignMove Scenario.worldADisabled 10 11).objs)
      ((EventListener.assignMove Scenario.worldADisabled 10 11).pools 0) Scenario.fooEvent
      = ⟨.Propagate, ⟨0, [], []⟩, []⟩ ∧
    (EventListener.ctorMove Scenario.worldADisabled 12 11).pools 0 = ⟨0, [some 12], []⟩ ∧
    (EventListener.assignMove Scenario.worldADisabled 11 11).pools 0
      = Scenario.worldADisabled.pools 0 := by
  decide

end geode
